import Mathlib

/-!
Shallow embedding of the QR-code scanning tool `scan_zyn_codes.py`
(repository `zyn_scanner`) and proofs about the claims of its
specification.  The embedding follows the source file:

* module initialisation (ZBAR_LIBRARY_PATH discovery, lines 6-48),
* decoder-backend selection (lines 50-61),
* `extract_codes_from_frame` (lines 63-115),
* the frame-sampling / dedup-accumulator loop of `main` (lines 147-188),
* the result sink (lines 190-201) and the exit-code policy (lines 134-145).

Python strings are modelled as Lean `String` (`str.strip` as an explicit
ASCII-whitespace strip), Python `set` as `Finset String`, and fallible
Python operations (`%` with divisor 0, decode failures) as `Except` /
`Option` values.
-/

namespace ZynScanner

/-- Models Python `str.strip()` (restricted to ASCII whitespace):
drops leading and trailing whitespace characters. -/
def pyStrip (s : String) : String :=
  String.mk (((s.data.dropWhile Char.isWhitespace).reverse.dropWhile
      Char.isWhitespace).reverse)

/-- The trailing run of non-`'/'` characters of a string, i.e. the part of
the match of the Python regex search `[^/]+$` (which may be empty exactly
when that search fails).  Source line 87 / 109. -/
def lastSegment (s : String) : List Char :=
  (s.data.reverse.takeWhile (fun c => c ≠ '/')).reverse

/-- Models `re.search(r'[^/]+$', url.strip())` followed by `match.group(0)`
(source lines 87-90 and 109-112): `none` when the search finds no match
(the trimmed payload is empty or ends with `'/'`), otherwise the non-empty
tail after the last `'/'`. -/
def tailMatch (url : String) : Option String :=
  let seg := lastSegment (pyStrip url)
  if seg = [] then none else some (String.mk seg)

/-- Following the spec's words only (spec 4.3 item 4): "the substring
following the final `/` in the trimmed payload (if no `/` is present, the
whole trimmed string is the candidate)". -/
def specTailCandidate (url : String) : String :=
  let t := pyStrip url
  if '/' ∈ t.data then
    String.mk ((t.data.reverse.takeWhile (fun c => c ≠ '/')).reverse)
  else t

/-- Models `re.fullmatch` of the default pattern `[A-Z0-9]{6,}` compiled
with `re.IGNORECASE` (source lines 122 and 136), for ASCII inputs:
at least six characters, each an ASCII letter or digit. -/
def defaultPatternMatch (s : String) : Bool :=
  decide (6 ≤ s.length) && s.data.all (fun c => c.isAlpha || c.isDigit)

/-- Models the user-configurable pattern `.*`, which fullmatches every
string (used to exercise the extractor with a pattern accepting ""). -/
def alwaysTrueMatch : String → Bool := fun _ => true

/-- The decoder backend chosen at module import time: pyzbar (primary) or
the OpenCV QRCodeDetector (fallback).  Spec 3 "DecoderBackend". -/
inductive DecoderBackend where
  | primary
  | fallback
  deriving DecidableEq

/-- Models the one-time backend selection of source lines 50-61:
`have_pyzbar` is `True` iff the `pyzbar` module imports (no ImportError)
and its native library loads (no OSError). -/
def selectBackend (importOk loadOk : Bool) : DecoderBackend :=
  if importOk && loadOk then .primary else .fallback

/-- A video frame, abstracted to what each decoder backend would produce
on it.  `primaryPayloads` lists the pyzbar decode results, a `none` entry
standing for a payload whose byte decode raises (source lines 79-82);
`multiOk` is the result of `detectAndDecodeMulti` (`none` when that call
raises, source lines 95-100); `singleResult` is the result of the
single-symbol `detectAndDecode` used after such a failure. -/
structure Frame where
  primaryPayloads : List (Option String)
  multiOk : Option (Bool × List String)
  singleResult : String
  deriving DecidableEq

/-- One step of the pyzbar extraction loop body (source lines 83-92):
add the full URL, or the regex tail when it fullmatches the pattern. -/
def addPayload (code_regex : String → Bool) (full_url : Bool)
    (codes : Finset String) (url : String) : Finset String :=
  if full_url then insert url codes
  else
    match tailMatch url with
    | none => codes
    | some code => if code_regex code then insert code codes else codes

/-- One step of the pyzbar extraction loop including the byte-decode
guard (source lines 78-92): a payload whose decode raises is skipped. -/
def addDecoded (code_regex : String → Bool) (full_url : Bool)
    (codes : Finset String) : Option String → Finset String
  | none => codes
  | some url => addPayload code_regex full_url codes url

/-- The `decoded_info` list the fallback branch iterates over (source
lines 95-100): the multi-symbol result when `detectAndDecodeMulti`
returns, otherwise `[data] if data else []` from the single-symbol call. -/
def fallbackDecodedInfo (f : Frame) : List String :=
  match f.multiOk with
  | some (ok, info) => if ok then info else []
  | none => if f.singleResult = "" then [] else [f.singleResult]

/-- Models `extract_codes_from_frame` (source lines 63-115), minus the
pure image preprocessing (upsample, grayscale) which does not affect the
set construction: fold the decoded payloads of the selected backend into
a set of codes.  The fallback branch also skips empty payload strings
(source line 103). -/
def extract_codes_from_frame (b : DecoderBackend) (code_regex : String → Bool)
    (full_url : Bool) (f : Frame) : Finset String :=
  match b with
  | .primary => f.primaryPayloads.foldl (addDecoded code_regex full_url) ∅
  | .fallback =>
      (fallbackDecodedInfo f).foldl
        (fun codes url =>
          if url = "" then codes else addPayload code_regex full_url codes url) ∅

/-- The decoded payload strings a backend actually submits to the
add-code logic: for pyzbar, the payloads whose byte decode succeeded; for
OpenCV, the non-empty entries of `decoded_info`. -/
def decodedPayloads (b : DecoderBackend) (f : Frame) : List String :=
  match b with
  | .primary => f.primaryPayloads.filterMap id
  | .fallback => (fallbackDecodedInfo f).filter (fun u => u ≠ "")

/-- What it means for a single decoded payload `url` to contribute the
code `code` (source lines 83-92): verbatim in full-url mode, the matched
regex tail otherwise. -/
def hitsPayload (code_regex : String → Bool) (full_url : Bool)
    (url code : String) : Prop :=
  if full_url then code = url
  else tailMatch url = some code ∧ code_regex code = true

instance (code_regex : String → Bool) (full_url : Bool) (url code : String) :
    Decidable (hitsPayload code_regex full_url url code) := by
  unfold hitsPayload
  split <;> infer_instance

/-- Code-point lexicographic comparison of character lists: the order in
which Python's `sorted` compares strings. -/
def lexLe : List Char → List Char → Bool
  | [], _ => true
  | _ :: _, [] => false
  | a :: as, b :: bs => if a = b then lexLe as bs else decide (a < b)

/-- Python's string order (code-point lexicographic), used by the calls
`sorted(new_codes)` and `sorted(unique_codes)` in the source. -/
def strLe (a b : String) : Bool := lexLe a.data b.data

/-- The order `strLe` as a proposition. -/
def CodeLe (a b : String) : Prop := strLe a b = true

instance : DecidableRel CodeLe := fun a b => by
  unfold CodeLe
  infer_instance

theorem lexLe_total : ∀ as bs : List Char, lexLe as bs = true ∨ lexLe bs as = true
  | [], _ => Or.inl rfl
  | _ :: _, [] => Or.inr rfl
  | a :: as, b :: bs => by
      by_cases hab : a = b
      · subst hab
        simpa [lexLe] using lexLe_total as bs
      · rcases lt_or_gt_of_ne hab with h | h
        · exact Or.inl (by simp [lexLe, hab, h])
        · exact Or.inr (by simp [lexLe, Ne.symm hab, h])

theorem lexLe_antisymm : ∀ as bs : List Char,
    lexLe as bs = true → lexLe bs as = true → as = bs
  | [], [], _, _ => rfl
  | [], _ :: _, _, h => by simp [lexLe] at h
  | _ :: _, [], h, _ => by simp [lexLe] at h
  | a :: as, b :: bs, h₁, h₂ => by
      by_cases hab : a = b
      · subst hab
        simp only [lexLe, if_pos rfl] at h₁ h₂
        exact congrArg (a :: ·) (lexLe_antisymm as bs h₁ h₂)
      · simp only [lexLe, if_neg hab, decide_eq_true_eq] at h₁
        simp only [lexLe, if_neg (Ne.symm hab), decide_eq_true_eq] at h₂
        exact absurd (h₁.trans h₂) (lt_irrefl a)

theorem lexLe_trans : ∀ as bs cs : List Char,
    lexLe as bs = true → lexLe bs cs = true → lexLe as cs = true
  | [], _, _, _, _ => rfl
  | _ :: _, [], _, h, _ => by simp [lexLe] at h
  | _ :: _, _ :: _, [], _, h => by simp [lexLe] at h
  | a :: as, b :: bs, c :: cs, h₁, h₂ => by
      by_cases hab : a = b <;> by_cases hbc : b = c
      · subst hab; subst hbc
        simp only [lexLe, if_pos rfl] at h₁ h₂ ⊢
        exact lexLe_trans as bs cs h₁ h₂
      · subst hab
        simpa [lexLe, hbc] using h₂
      · subst hbc
        simpa [lexLe, hab] using h₁
      · simp only [lexLe, if_neg hab, decide_eq_true_eq] at h₁
        simp only [lexLe, if_neg hbc, decide_eq_true_eq] at h₂
        have hac : a < c := h₁.trans h₂
        simp [lexLe, ne_of_lt hac, hac]

instance : IsTotal String CodeLe :=
  ⟨fun a b => lexLe_total a.data b.data⟩

instance : IsTrans String CodeLe :=
  ⟨fun a b c => lexLe_trans a.data b.data c.data⟩

instance : IsAntisymm String CodeLe :=
  ⟨fun a b h₁ h₂ => by
    cases a with
    | mk da =>
      cases b with
      | mk db => exact congrArg String.mk (lexLe_antisymm da db h₁ h₂)⟩

instance : IsRefl String CodeLe :=
  ⟨fun a => (lexLe_total a.data a.data).elim id id⟩

theorem insertionSort_eq_of_perm {l₁ l₂ : List String} (h : l₁.Perm l₂) :
    l₁.insertionSort CodeLe = l₂.insertionSort CodeLe :=
  List.eq_of_perm_of_sorted
    ((List.perm_insertionSort CodeLe l₁).trans
      (h.trans (List.perm_insertionSort CodeLe l₂).symm))
    (List.sorted_insertionSort CodeLe l₁)
    (List.sorted_insertionSort CodeLe l₂)

/-- Models `sorted(...)` applied to a Python set of strings (source
lines 185, 194, 200): the elements listed in ascending code-point
lexicographic order. -/
def sortedCodes (codes : Finset String) : List String :=
  Quotient.lift (fun l : List String => l.insertionSort CodeLe)
    (fun _ _ h => insertionSort_eq_of_perm h) codes.val

theorem mem_sortedCodes {codes : Finset String} {a : String} :
    a ∈ sortedCodes codes ↔ a ∈ codes := by
  rcases codes with ⟨m, nd⟩
  induction m using Quotient.inductionOn with
  | h l =>
    show a ∈ l.insertionSort CodeLe ↔ _
    rw [List.mem_insertionSort]
    simp [Finset.mem_mk, Multiset.mem_coe]

theorem sortedCodes_nodup (codes : Finset String) :
    (sortedCodes codes).Nodup := by
  rcases codes with ⟨m, nd⟩
  induction m using Quotient.inductionOn with
  | h l =>
    exact (List.perm_insertionSort CodeLe l).nodup_iff.mpr nd

theorem sortedCodes_sorted (codes : Finset String) :
    (sortedCodes codes).Sorted CodeLe := by
  rcases codes with ⟨m, nd⟩
  induction m using Quotient.inductionOn with
  | h l => exact List.sorted_insertionSort CodeLe l

theorem sortedCodes_toFinset (codes : Finset String) :
    (sortedCodes codes).toFinset = codes := by
  ext a
  rw [List.mem_toFinset, mem_sortedCodes]

theorem mem_addPayload {code_regex : String → Bool} {full_url : Bool}
    {codes : Finset String} {url code : String} :
    code ∈ addPayload code_regex full_url codes url ↔
      code ∈ codes ∨ hitsPayload code_regex full_url url code := by
  unfold addPayload hitsPayload
  cases full_url with
  | true => simp [Finset.mem_insert, or_comm]
  | false =>
      simp only [Bool.false_eq_true, if_false]
      cases htm : tailMatch url with
      | none => simp
      | some c =>
          by_cases hm : code_regex c = true
          · simp only [hm, if_true, Finset.mem_insert]
            constructor
            · rintro (rfl | h)
              · exact Or.inr ⟨rfl, hm⟩
              · exact Or.inl h
            · rintro (h | ⟨hc, _⟩)
              · exact Or.inr h
              · exact Or.inl (Option.some_injective _ hc).symm
          · simp only [hm, if_false]
            constructor
            · exact Or.inl
            · rintro (h | ⟨hc, hcm⟩)
              · exact h
              · cases Option.some_injective _ hc
                exact absurd hcm hm

theorem mem_foldl_addDecoded (code_regex : String → Bool) (full_url : Bool)
    (ps : List (Option String)) (init : Finset String) (code : String) :
    code ∈ ps.foldl (addDecoded code_regex full_url) init ↔
      code ∈ init ∨
        ∃ url, some url ∈ ps ∧ hitsPayload code_regex full_url url code := by
  induction ps generalizing init with
  | nil => simp
  | cons p ps ih =>
      rw [List.foldl_cons, ih]
      cases p with
      | none => simp [addDecoded]
      | some url =>
          simp only [addDecoded, mem_addPayload, List.mem_cons]
          constructor
          · rintro ((h | h) | ⟨u, hu, hh⟩)
            · exact Or.inl h
            · exact Or.inr ⟨url, Or.inl rfl, h⟩
            · exact Or.inr ⟨u, Or.inr hu, hh⟩
          · rintro (h | ⟨u, (hu | hu), hh⟩)
            · exact Or.inl (Or.inl h)
            · cases Option.some_injective _ hu
              exact Or.inl (Or.inr hh)
            · exact Or.inr ⟨u, hu, hh⟩

theorem fallback_foldl_eq (code_regex : String → Bool) (full_url : Bool)
    (info : List String) (init : Finset String) :
    info.foldl
        (fun codes url =>
          if url = "" then codes else addPayload code_regex full_url codes url)
        init =
      ((info.filter (fun u => u ≠ "")).map some).foldl
        (addDecoded code_regex full_url) init := by
  induction info generalizing init with
  | nil => rfl
  | cons url info ih =>
      by_cases hu : url = ""
      · simp [hu, ih]
      · simp [hu, ih, addDecoded]

/-- Membership characterisation of the extractor: a code is produced iff
some decoded payload string of the selected backend contributes it. -/
theorem mem_extract_codes_from_frame (b : DecoderBackend)
    (code_regex : String → Bool) (full_url : Bool) (f : Frame) (code : String) :
    code ∈ extract_codes_from_frame b code_regex full_url f ↔
      ∃ url ∈ decodedPayloads b f,
        hitsPayload code_regex full_url url code := by
  cases b with
  | primary =>
      rw [extract_codes_from_frame, mem_foldl_addDecoded]
      simp only [Finset.not_mem_empty, false_or, decodedPayloads,
        List.mem_filterMap, id_eq]
      constructor
      · rintro ⟨url, hu, hh⟩
        exact ⟨url, ⟨some url, hu, rfl⟩, hh⟩
      · rintro ⟨url, ⟨o, ho, rfl⟩, hh⟩
        exact ⟨url, ho, hh⟩
  | fallback =>
      rw [extract_codes_from_frame, fallback_foldl_eq, mem_foldl_addDecoded]
      simp only [Finset.not_mem_empty, false_or, decodedPayloads,
        List.mem_map, List.mem_filter]
      constructor
      · rintro ⟨url, hu, hh⟩
        rcases hu with ⟨u, hu, he⟩
        cases Option.some_injective _ he.symm
        exact ⟨url, hu, hh⟩
      · rintro ⟨url, hu, hh⟩
        exact ⟨url, ⟨url, hu, rfl⟩, hh⟩

theorem strMk_data (s : String) : String.mk s.data = s := by
  cases s with
  | mk d => rfl

theorem specTailCandidate_eq (url : String) :
    specTailCandidate url = String.mk (lastSegment (pyStrip url)) := by
  dsimp only [specTailCandidate, lastSegment]
  split
  · rfl
  · next h =>
      rw [List.takeWhile_eq_self_iff.mpr, List.reverse_reverse, strMk_data]
      intro c hc
      simp only [ne_eq, decide_eq_true_eq]
      rintro rfl
      exact h (List.mem_reverse.mp hc)

theorem tailMatch_eq_some {url code : String} :
    tailMatch url = some code ↔ specTailCandidate url = code ∧ code ≠ "" := by
  rw [specTailCandidate_eq]
  unfold tailMatch
  by_cases h : lastSegment (pyStrip url) = []
  · simp only [h, if_pos rfl]
    constructor
    · rintro ⟨⟩
    · rintro ⟨rfl, hne⟩
      exact absurd rfl hne
  · simp only [if_neg h, Option.some_inj]
    constructor
    · rintro rfl
      refine ⟨rfl, ?_⟩
      intro he
      exact h (congrArg String.data he)
    · rintro ⟨rfl, _⟩
      rfl

/-- Models Python's `%` on integers (source line 155): floor-modulus,
raising `ZeroDivisionError` when the divisor is zero.  `--interval` is
parsed by argparse with `type=int` and never validated, so it can be any
integer, including zero and negatives. -/
def pymod (a b : Int) : Except String Int :=
  if b = 0 then .error "ZeroDivisionError: integer modulo by zero"
  else .ok (Int.fmod a b)

/-- The message of the uncaught exception Python raises for `x % 0`. -/
def zeroDivMsg : String := "ZeroDivisionError: integer modulo by zero"

/-- Models the frame-reading loop of `main` (source lines 150-156) over a
finite frame sequence, accumulating the frames passed downstream: each
read frame increments the 1-based counter, and the frame is kept exactly
when `frame_idx % interval == 0`; a zero interval makes the modulus
raise, aborting the run with an uncaught exception. -/
def readLoop (interval : Int) : List Frame → Nat → Except String (List Frame)
  | [], _ => .ok []
  | f :: fs, idx =>
      match pymod (idx + 1 : Nat) interval with
      | .error e => .error e
      | .ok r =>
          match readLoop interval fs (idx + 1) with
          | .error e => .error e
          | .ok rest => .ok (if r ≠ 0 then rest else f :: rest)

/-- The sampling loop specialised to a positive interval (the only case
in which Python's `%` cannot raise): keep the frames whose 1-based read
index is divisible by the interval. -/
def sampleLoop (interval : Nat) : List Frame → Nat → List Frame
  | [], _ => []
  | f :: fs, idx =>
      if (idx + 1) % interval = 0 then f :: sampleLoop interval fs (idx + 1)
      else sampleLoop interval fs (idx + 1)

theorem readLoop_pos (K : Nat) (hK : 0 < K) (frames : List Frame) (n : Nat) :
    readLoop (K : Int) frames n = .ok (sampleLoop K frames n) := by
  induction frames generalizing n with
  | nil => rfl
  | cons f fs ih =>
      have hKz : (K : Int) ≠ 0 := by exact_mod_cast Nat.pos_iff_ne_zero.mp hK
      have hmod : pymod ((n + 1 : Nat) : Int) (K : Int) =
          .ok (((n + 1) % K : Nat) : Int) := by
        rw [pymod, if_neg hKz, Int.ofNat_fmod]
      rw [readLoop, hmod, ih (n + 1)]
      by_cases h : (n + 1) % K = 0
      · rw [sampleLoop, if_pos h, h]
        norm_num
      · have hz : (((n + 1) % K : Nat) : Int) ≠ 0 := by exact_mod_cast h
        rw [sampleLoop, if_neg h]
        simp only [ne_eq, hz, not_false_eq_true, if_true]

theorem readLoop_ne_zero (K : Int) (hK : K ≠ 0) (frames : List Frame) (n : Nat) :
    ∃ kept, readLoop K frames n = .ok kept := by
  induction frames generalizing n with
  | nil => exact ⟨[], rfl⟩
  | cons f fs ih =>
      rcases ih (n + 1) with ⟨kept, hk⟩
      have hpm : pymod ((n + 1 : Nat) : Int) K =
          .ok (Int.fmod ((n + 1 : Nat) : Int) K) := by
        rw [pymod, if_neg hK]
      refine ⟨if Int.fmod ((n + 1 : Nat) : Int) K ≠ 0 then kept
        else f :: kept, ?_⟩
      rw [readLoop, hpm, hk]

theorem readLoop_zero (f : Frame) (fs : List Frame) (n : Nat) :
    readLoop 0 (f :: fs) n = .error zeroDivMsg := by
  rw [readLoop, pymod, if_pos rfl]
  rfl

theorem sampleLoop_eq_filterMap (K : Nat) (frames : List Frame) (n : Nat) :
    sampleLoop K frames n =
      ((List.range frames.length).zip frames).filterMap
        (fun p => if (n + p.1 + 1) % K = 0 then some p.2 else none) := by
  induction frames generalizing n with
  | nil => rfl
  | cons f fs ih =>
      have hfun : ((fun p : Nat × Frame =>
            if (n + p.1 + 1) % K = 0 then some p.2 else none) ∘
              Prod.map Nat.succ id) =
          (fun p : Nat × Frame =>
            if (n + 1 + p.1 + 1) % K = 0 then some p.2 else none) := by
        funext p
        rcases p with ⟨j, x⟩
        simp only [Function.comp_apply, Prod.map_apply, id_eq]
        have harith : n + Nat.succ j + 1 = n + 1 + j + 1 := by omega
        rw [harith]
      rw [sampleLoop, ih (n + 1), List.length_cons, List.range_succ_eq_map,
        List.zip_cons_cons, List.filterMap_cons, List.zip_map_left,
        List.filterMap_map, hfun]
      by_cases h : (n + 1) % K = 0 <;> simp [h]

theorem count_multiples (K M : Nat) :
    ((List.range M).countP (fun j => (j + 1) % K == 0)) = M / K := by
  induction M with
  | zero => simp
  | succ m ih =>
      rw [List.range_succ, List.countP_append, ih, Nat.succ_div,
        List.countP_cons, List.countP_nil]
      congr 1
      by_cases h : K ∣ m + 1
      · rw [if_pos h, if_pos (by simpa using Nat.mod_eq_zero_of_dvd h)]
      · rw [if_neg h,
          if_neg (by simpa using fun hc => h (Nat.dvd_of_mod_eq_zero hc))]

theorem length_filterMap_sampled (K : Nat) (frames : List Frame) :
    (((List.range frames.length).zip frames).filterMap
        (fun p => if (0 + p.1 + 1) % K = 0 then some p.2 else none)).length =
      frames.length / K := by
  rw [← count_multiples K frames.length]
  induction frames using List.reverseRecOn with
  | nil => rfl
  | append_singleton fs f ih =>
      rw [List.length_append, List.length_singleton, List.range_succ,
        List.zip_append (by simp), List.filterMap_append, List.length_append,
        List.countP_append, ih]
      congr 1
      by_cases h : (fs.length + 1) % K = 0
      · simp [h]
      · simp [h]

/-- One iteration of the dedup accumulator (source lines 183-187):
`new_codes = codes - unique_codes`; the new codes are announced in sorted
order, then merged with `unique_codes.update(new_codes)`.  The first
component is the list of announced codes of this frame (empty when
nothing is new), the second the updated unique set. -/
def accumStep (unique codes : Finset String) :
    List String × Finset String :=
  let new_codes := codes \ unique
  (sortedCodes new_codes, unique ∪ new_codes)

/-- The accumulator run over a sequence of per-frame extracted code sets:
returns the per-frame announcement lists and the final unique set. -/
def runAccum (unique : Finset String) :
    List (Finset String) → List (List String) × Finset String
  | [] => ([], unique)
  | codes :: rest =>
      let s := accumStep unique codes
      let r := runAccum s.2 rest
      (s.1 :: r.1, r.2)

theorem accumStep_snd (unique codes : Finset String) :
    (accumStep unique codes).2 = unique ∪ codes := by
  rw [accumStep]
  exact Finset.union_sdiff_self_eq_union

theorem mem_runAccum_snd (unique : Finset String)
    (feeds : List (Finset String)) (code : String) :
    code ∈ (runAccum unique feeds).2 ↔
      code ∈ unique ∨ ∃ c ∈ feeds, code ∈ c := by
  induction feeds generalizing unique with
  | nil => simp [runAccum]
  | cons codes rest ih =>
      rw [runAccum]
      rw [show (runAccum (accumStep unique codes).2 rest).2 =
        (runAccum (unique ∪ codes) rest).2 from by rw [accumStep_snd]]
      rw [ih]
      simp only [Finset.mem_union, List.mem_cons]
      constructor
      · rintro ((h | h) | ⟨c, hc, hm⟩)
        · exact Or.inl h
        · exact Or.inr ⟨codes, Or.inl rfl, h⟩
        · exact Or.inr ⟨c, Or.inr hc, hm⟩
      · rintro (h | ⟨c, (rfl | hc), hm⟩)
        · exact Or.inl (Or.inl h)
        · exact Or.inl (Or.inr hm)
        · exact Or.inr ⟨c, hc, hm⟩

theorem mem_runAccum_announced (unique : Finset String)
    (feeds : List (Finset String)) (code : String) :
    code ∈ (runAccum unique feeds).1.flatten ↔
      code ∉ unique ∧ ∃ c ∈ feeds, code ∈ c := by
  induction feeds generalizing unique with
  | nil => simp [runAccum]
  | cons codes rest ih =>
      rw [runAccum]
      rw [show (runAccum (accumStep unique codes).2 rest).1 =
        (runAccum (unique ∪ codes) rest).1 from by rw [accumStep_snd]]
      show code ∈ (accumStep unique codes).1 ++
          (runAccum (unique ∪ codes) rest).1.flatten ↔ _
      rw [List.mem_append, ih, accumStep]
      simp only [mem_sortedCodes, Finset.mem_sdiff, Finset.mem_union,
        List.mem_cons, not_or]
      constructor
      · rintro (⟨hm, hu⟩ | ⟨⟨hu, hc⟩, c, hcr, hm⟩)
        · exact ⟨hu, codes, Or.inl rfl, hm⟩
        · exact ⟨hu, c, Or.inr hcr, hm⟩
      · rintro ⟨hu, c, (rfl | hcr), hm⟩
        · exact Or.inl ⟨hm, hu⟩
        · by_cases hc : code ∈ codes
          · exact Or.inl ⟨hc, hu⟩
          · exact Or.inr ⟨⟨hu, hc⟩, c, hcr, hm⟩

theorem runAccum_announced_nodup (unique : Finset String)
    (feeds : List (Finset String)) :
    (runAccum unique feeds).1.flatten.Nodup := by
  induction feeds generalizing unique with
  | nil => simp [runAccum]
  | cons codes rest ih =>
      rw [runAccum]
      show ((accumStep unique codes).1 ++
          (runAccum (accumStep unique codes).2 rest).1.flatten).Nodup
      rw [List.nodup_append]
      refine ⟨sortedCodes_nodup _, ih _, ?_⟩
      intro a ha hb
      rw [accumStep] at ha
      rw [mem_sortedCodes, Finset.mem_sdiff] at ha
      rw [mem_runAccum_announced, accumStep_snd, Finset.mem_union] at hb
      exact hb.1 (Or.inr ha.1)

theorem runAccum_frames_sorted (unique : Finset String)
    (feeds : List (Finset String)) :
    ∀ l ∈ (runAccum unique feeds).1, l.Sorted CodeLe ∧ l.Nodup := by
  induction feeds generalizing unique with
  | nil => simp [runAccum]
  | cons codes rest ih =>
      rw [runAccum]
      intro l hl
      rw [List.mem_cons] at hl
      rcases hl with rfl | hl
      · exact ⟨sortedCodes_sorted _, sortedCodes_nodup _⟩
      · exact ih _ l hl

/-- The successive values of `unique_codes` across the scan loop: the
state before any frame, then the state after each processed frame. -/
def accumStates (unique : Finset String) :
    List (Finset String) → List (Finset String)
  | [] => [unique]
  | codes :: rest => unique :: accumStates (accumStep unique codes).2 rest

theorem accumStates_ne_nil (unique : Finset String)
    (feeds : List (Finset String)) : accumStates unique feeds ≠ [] := by
  cases feeds <;> simp [accumStates]

theorem accumStates_head (unique : Finset String)
    (feeds : List (Finset String)) :
    (accumStates unique feeds).head? = some unique := by
  cases feeds <;> rfl

theorem mem_accumStates_subset (unique : Finset String)
    (feeds : List (Finset String)) :
    ∀ s ∈ accumStates unique feeds, unique ⊆ s := by
  induction feeds generalizing unique with
  | nil =>
      rintro s hs
      rw [accumStates, List.mem_singleton] at hs
      exact hs ▸ Finset.Subset.refl _
  | cons codes rest ih =>
      rintro s hs
      rw [accumStates, List.mem_cons] at hs
      rcases hs with rfl | hs
      · exact Finset.Subset.refl _
      · refine Finset.Subset.trans ?_ (ih _ s hs)
        rw [accumStep_snd]
        exact Finset.subset_union_left

theorem accumStates_chain (unique : Finset String)
    (feeds : List (Finset String)) :
    (accumStates unique feeds).Chain' (· ⊆ ·) := by
  induction feeds generalizing unique with
  | nil => simp [accumStates]
  | cons codes rest ih =>
      rw [accumStates, List.chain'_cons']
      refine ⟨?_, ih _⟩
      intro s hs
      have := accumStates_head (accumStep unique codes).2 rest
      rw [this, Option.mem_some_iff] at hs
      subst hs
      rw [accumStep_snd]
      exact Finset.subset_union_left

theorem accumStates_pairwise (unique : Finset String)
    (feeds : List (Finset String)) :
    (accumStates unique feeds).Pairwise (· ⊆ ·) := by
  induction feeds generalizing unique with
  | nil => simp [accumStates]
  | cons codes rest ih =>
      rw [accumStates, List.pairwise_cons]
      refine ⟨?_, ih _⟩
      intro s hs
      refine Finset.Subset.trans ?_ (mem_accumStates_subset _ _ s hs)
      rw [accumStep_snd]
      exact Finset.subset_union_left

theorem accumStates_getLast (unique : Finset String)
    (feeds : List (Finset String)) :
    (accumStates unique feeds).getLast? = some (runAccum unique feeds).2 := by
  induction feeds generalizing unique with
  | nil => rfl
  | cons codes rest ih =>
      rw [accumStates, runAccum, List.getLast?_cons, ih _]
      rfl

/-- The text the Result Sink writes to the output file (source lines
193-195): each code of the sorted unique set followed by a newline,
concatenated in order. -/
def writeOutput (codes : Finset String) : String :=
  String.join ((sortedCodes codes).map (fun c => c ++ "\n"))

/-- The lines the Result Sink prints to standard output when no output
path is given (source lines 200-201): the sorted unique codes, one print
call per code. -/
def stdoutCodes (codes : Finset String) : List String :=
  sortedCodes codes

/-- Splitting a character sequence into lines, with Python
`str.splitlines` conventions for `'\n'`: a trailing newline terminates
the last line instead of opening an empty one. -/
def splitLinesCh : List Char → List (List Char)
  | [] => []
  | c :: cs =>
      if c = '\n' then [] :: splitLinesCh cs
      else
        match splitLinesCh cs with
        | [] => [[c]]
        | l :: ls => (c :: l) :: ls

/-- Reading the output file back: split into lines and strip each line,
the round-trip the spec describes ("line-split, trimmed"). -/
def readBack (content : String) : List String :=
  (splitLinesCh content.data).map (fun l => pyStrip (String.mk l))

theorem data_foldl_append (a : String) (l : List String) :
    (l.foldl (fun r s => r ++ s) a).data =
      a.data ++ (l.map String.data).flatten := by
  induction l generalizing a with
  | nil => simp
  | cons s rest ih =>
      rw [List.foldl_cons, ih, String.data_append, List.map_cons,
        List.flatten_cons, List.append_assoc]

theorem data_join (l : List String) :
    (String.join l).data = (l.map String.data).flatten := by
  show (l.foldl (fun r s => r ++ s) "").data = _
  rw [data_foldl_append]
  rfl

theorem splitLinesCh_line (line : List Char) (h : '\n' ∉ line)
    (rest : List Char) :
    splitLinesCh (line ++ '\n' :: rest) = line :: splitLinesCh rest := by
  induction line with
  | nil => simp [splitLinesCh]
  | cons c cs ih =>
      have hc : c ≠ '\n' := fun hc => h (hc ▸ List.mem_cons_self c cs)
      have hcs : '\n' ∉ cs := fun hm => h (List.mem_cons_of_mem c hm)
      rw [List.cons_append, splitLinesCh, if_neg hc, ih hcs]

theorem splitLinesCh_flatten (lines : List (List Char))
    (h : ∀ l ∈ lines, '\n' ∉ l) :
    splitLinesCh ((lines.map (fun l => l ++ ['\n'])).flatten) = lines := by
  induction lines with
  | nil => rfl
  | cons l ls ih =>
      rw [List.map_cons, List.flatten_cons, List.append_assoc,
        List.singleton_append,
        splitLinesCh_line l (h l (List.mem_cons_self l ls)),
        ih (fun x hx => h x (List.mem_cons_of_mem l hx))]

theorem readBack_writeOutput (codes : Finset String)
    (h : ∀ c ∈ codes, pyStrip c = c ∧ '\n' ∉ c.data) :
    readBack (writeOutput codes) = sortedCodes codes := by
  rw [readBack, writeOutput, data_join]
  have hmap : ((sortedCodes codes).map (fun c => c ++ "\n")).map String.data
      = ((sortedCodes codes).map String.data).map (fun l => l ++ ['\n']) := by
    rw [List.map_map, List.map_map]
    refine List.map_congr_left ?_
    intro c _
    show (c ++ "\n").data = c.data ++ ['\n']
    rw [String.data_append]
  have hnl : ∀ l ∈ (sortedCodes codes).map String.data, '\n' ∉ l := by
    intro l hl
    rw [List.mem_map] at hl
    rcases hl with ⟨c, hc, rfl⟩
    exact (h c (mem_sortedCodes.mp hc)).2
  rw [hmap, splitLinesCh_flatten _ hnl, List.map_map]
  refine Eq.trans (List.map_congr_left ?_) (List.map_id _)
  intro c hc
  show pyStrip (String.mk c.data) = c
  rw [strMk_data]
  exact (h c (mem_sortedCodes.mp hc)).1

/-- The environment variable the module initialisation may set. -/
def zbarEnvKey : String := "ZBAR_LIBRARY_PATH"

/-- The fixed, ordered candidate list `brew_libs` of source lines 24-36
(with `os.path.expanduser` left symbolic as the `~` prefix). -/
def brew_libs : List String :=
  ["~/lib/libzbar.dylib",
   "~/lib/libzbar.0.dylib",
   "/opt/homebrew/lib/libzbar.dylib",
   "/opt/homebrew/lib/libzbar.0.dylib",
   "/usr/local/lib/libzbar.dylib",
   "/usr/local/lib/libzbar.0.dylib",
   "/usr/local/opt/zbar/lib/libzbar.dylib",
   "/usr/local/opt/zbar/lib/libzbar.0.dylib"]

/-- Models `ctypes.util.find_library('zbar') or
ctypes.util.find_library('zbar.0')` (source line 7). -/
def findLibResult (findZbar findZbar0 : Option String) : Option String :=
  match findZbar with
  | some l => some l
  | none => findZbar0

/-- The value of `ZBAR_LIBRARY_PATH` after the first mutation site
(source lines 6-9): set from `find_library` only when the variable is
not already present and the lookup produced something. -/
def envAfterStep1 (env0 findZbar findZbar0 : Option String) :
    Option String :=
  match env0 with
  | some v => some v
  | none =>
      match findLibResult findZbar findZbar0 with
      | some l => some l
      | none => none

/-- The value of `ZBAR_LIBRARY_PATH` after the second mutation site
(source lines 43-48): set to the first existing candidate of
`brew_libs`, only when the variable is still not present. -/
def envAfterStep2 (env1 : Option String) (isFile : String → Bool) :
    Option String :=
  match env1 with
  | some v => some v
  | none => brew_libs.find? isFile

/-- The value of `ZBAR_LIBRARY_PATH` after the whole module
initialisation, before the `pyzbar` import attempt of line 50. -/
def moduleInitEnv (env0 findZbar findZbar0 : Option String)
    (isFile : String → Bool) : Option String :=
  envAfterStep2 (envAfterStep1 env0 findZbar findZbar0) isFile

/-- How many times the module initialisation actually wrote the
environment variable (one per mutation site whose guard fired). -/
def envMutations (env0 findZbar findZbar0 : Option String)
    (isFile : String → Bool) : Nat :=
  (if envAfterStep1 env0 findZbar findZbar0 = env0 then 0 else 1) +
    (if moduleInitEnv env0 findZbar findZbar0 isFile =
        envAfterStep1 env0 findZbar findZbar0 then 0 else 1)

/-- The full process environment after module initialisation: only the
`ZBAR_LIBRARY_PATH` entry is ever written. -/
def moduleInitEnvMap (env : String → Option String)
    (findZbar findZbar0 : Option String) (isFile : String → Bool) :
    String → Option String :=
  fun k =>
    if k = zbarEnvKey then
      moduleInitEnv (env zbarEnvKey) findZbar findZbar0 isFile
    else env k

/-- Module startup: environment resolution, then backend selection.  The
selection consumes the import/load outcome and leaves the environment
untouched. -/
def moduleStartup (env0 findZbar findZbar0 : Option String)
    (isFile : String → Bool) (importOk loadOk : Bool) :
    Option String × DecoderBackend :=
  (moduleInitEnv env0 findZbar findZbar0 isFile,
    selectBackend importOk loadOk)

/-- The mutable state of the scan loop (source lines 147-187): the
backend fixed at startup and the running unique-code set. -/
structure ScanState where
  backend : DecoderBackend
  unique : Finset String
  deriving DecidableEq

/-- The body of the scan loop for one processed frame (source lines
182-187): extract, diff, merge.  The backend field is read, never
written. -/
def frameStep (code_regex : String → Bool) (full_url : Bool)
    (st : ScanState) (f : Frame) : ScanState :=
  { st with
    unique :=
      (accumStep st.unique
        (extract_codes_from_frame st.backend code_regex full_url f)).2 }

/-- The scan over the processed frames, starting from the backend chosen
at module import time and an empty unique set. -/
def runScanFrames (importOk loadOk : Bool) (code_regex : String → Bool)
    (full_url : Bool) (frames : List Frame) : ScanState :=
  frames.foldl (frameStep code_regex full_url)
    ⟨selectBackend importOk loadOk, ∅⟩

theorem foldl_frameStep_backend (code_regex : String → Bool)
    (full_url : Bool) (frames : List Frame) (st : ScanState) :
    (frames.foldl (frameStep code_regex full_url) st).backend =
      st.backend := by
  induction frames generalizing st with
  | nil => rfl
  | cons f fs ih => rw [List.foldl_cons, ih]; rfl

/-- The outcome of one invocation of the scan CLI. -/
inductive Outcome where
  | exited (code : Nat)
  | completed
  | crashed (msg : String)
  deriving DecidableEq

/-- Configuration of one scan run: results of the fallible environment
steps plus the CLI arguments that matter for control flow. -/
structure ScanConfig where
  patternValid : Bool
  sourceOpens : Bool
  interval : Int
  full_url : Bool
  code_regex : String → Bool
  importOk : Bool
  loadOk : Bool
  frames : List Frame
  outputPath : Bool
  writeOk : Bool

/-- The observable result of one scan run. -/
structure ScanRun where
  outcome : Outcome
  writeAttempted : Bool
  finalCodes : Finset String
  diagnostics : List String

/-- Models `main` (source lines 117-201): compile the pattern (exit 1 on
`re.error`), open the video (exit 1 when not opened), run the sampling
loop (which crashes on a zero interval with a nonempty source), extract
and accumulate codes over the sampled frames, then write or print the
results; a write failure is only a diagnostic. -/
def runScan (cfg : ScanConfig) : ScanRun :=
  if cfg.patternValid = false then
    ⟨.exited 1, false, ∅, ["Invalid regex pattern"]⟩
  else if cfg.sourceOpens = false then
    ⟨.exited 1, false, ∅, ["Error: unable to open video"]⟩
  else
    match readLoop cfg.interval cfg.frames 0 with
    | .error e => ⟨.crashed e, false, ∅, []⟩
    | .ok sampled =>
        let b := selectBackend cfg.importOk cfg.loadOk
        let codes :=
          (runAccum ∅
            (sampled.map
              (extract_codes_from_frame b cfg.code_regex cfg.full_url))).2
        ⟨.completed, cfg.outputPath, codes,
          if cfg.outputPath && !cfg.writeOk then
            ["Error writing to output file"]
          else []⟩

/-- The Python process exit status an outcome corresponds to: `main`
falling off its end is status 0, `sys.exit(1)` is status 1, and an
uncaught exception prints a traceback and also terminates the process
with status 1 (with no diagnostic exit and no output written). -/
def exitStatus : Outcome → Nat
  | .exited c => c
  | .completed => 0
  | .crashed _ => 1

/-- The payload of the spec's pattern-filtering example, decoded
identically by both backends. -/
def exampleFrame : Frame :=
  ⟨[some "https://example.com/ABC123"],
   some (true, ["https://example.com/ABC123"]),
   "https://example.com/ABC123"⟩

/-- A frame on which both backends decode nothing. -/
def blankFrame : Frame := ⟨[], some (true, []), ""⟩

/-- Twelve frames with no QR content, for the sampling witness. -/
def witFrames : List Frame := List.replicate 12 blankFrame

/-- A run configuration with a zero sampling interval on an openable
one-frame source. -/
def cfgZero : ScanConfig :=
  ⟨true, true, 0, false, defaultPatternMatch, true, true, [blankFrame],
    false, true⟩

/-- A run configuration whose output write fails. -/
def cfgWriteFail : ScanConfig :=
  ⟨true, true, 10, false, defaultPatternMatch, true, true, [blankFrame],
    true, false⟩

theorem sortedCodes_empty : sortedCodes ∅ = [] := rfl

theorem addPayload_of_tailMatch_none (code_regex : String → Bool)
    (codes : Finset String) (url : String) (h : tailMatch url = none) :
    addPayload code_regex false codes url = codes := by
  rw [addPayload, if_neg (by simp), h]

theorem runScan_invalid_pattern (cfg : ScanConfig)
    (h : cfg.patternValid = false) :
    runScan cfg = ⟨.exited 1, false, ∅, ["Invalid regex pattern"]⟩ := by
  rw [runScan, if_pos h]

theorem runScan_unopenable (cfg : ScanConfig) (hp : cfg.patternValid = true)
    (hs : cfg.sourceOpens = false) :
    runScan cfg = ⟨.exited 1, false, ∅, ["Error: unable to open video"]⟩ := by
  rw [runScan, if_neg (by rw [hp]; exact fun hc => Bool.noConfusion hc),
    if_pos hs]

theorem runScan_ok (cfg : ScanConfig) (hp : cfg.patternValid = true)
    (hs : cfg.sourceOpens = true) (sampled : List Frame)
    (hk : readLoop cfg.interval cfg.frames 0 = .ok sampled) :
    runScan cfg =
      ⟨.completed, cfg.outputPath,
        (runAccum ∅
          (sampled.map
            (extract_codes_from_frame (selectBackend cfg.importOk cfg.loadOk)
              cfg.code_regex cfg.full_url))).2,
        if cfg.outputPath && !cfg.writeOk then
          ["Error writing to output file"]
        else []⟩ := by
  rw [runScan, if_neg (by rw [hp]; exact fun hc => Bool.noConfusion hc),
    if_neg (by rw [hs]; exact fun hc => Bool.noConfusion hc), hk]

theorem runScan_crashed (cfg : ScanConfig) (hp : cfg.patternValid = true)
    (hs : cfg.sourceOpens = true) (e : String)
    (hk : readLoop cfg.interval cfg.frames 0 = .error e) :
    runScan cfg = ⟨.crashed e, false, ∅, []⟩ := by
  rw [runScan, if_neg (by rw [hp]; exact fun hc => Bool.noConfusion hc),
    if_neg (by rw [hs]; exact fun hc => Bool.noConfusion hc), hk]

/-- Claim C1, as stated, is false: it says the candidate (the substring
after the final `/` of the trimmed payload) is added iff it fully matches
the configured pattern.  For the payload `"x/"` that substring is the
empty string, and under a pattern matching the empty string (such as
`.*`, modelled by `alwaysTrueMatch`) the claim would add `""`; the code's
tail-extraction regex `[^/]+$` finds no match there, so nothing is
added. -/
theorem extract_tail_filter_counterexample :
    ¬ (∀ (code_regex : String → Bool) (f : Frame) (code : String),
        code ∈ extract_codes_from_frame .primary code_regex false f ↔
          ∃ url ∈ decodedPayloads .primary f,
            specTailCandidate url = code ∧ code_regex code = true) := by
  intro hclaim
  have hmem := (hclaim alwaysTrueMatch ⟨[some "x/"], none, ""⟩ "").mpr
    ⟨"x/", by decide, by decide, rfl⟩
  exact absurd hmem (by decide)

/-- Claim C1, amended: in full-url mode every decoded payload string is
added verbatim; in non-full-url mode the candidate is the substring after
the final `/` of the trimmed payload (the whole trimmed string when no
`/` is present) and it is added iff it is non-empty and fully matches the
configured pattern.  In particular, `https://example.com/ABC123` with the
default pattern yields exactly `ABC123` in non-full-url mode and the full
URL in full-url mode, under either backend. -/
theorem extract_tail_filter_amended (b : DecoderBackend)
    (code_regex : String → Bool) (f : Frame) (code : String) :
    ((code ∈ extract_codes_from_frame b code_regex true f ↔
        code ∈ decodedPayloads b f) ∧
      (code ∈ extract_codes_from_frame b code_regex false f ↔
        ∃ url ∈ decodedPayloads b f,
          specTailCandidate url = code ∧ code ≠ "" ∧
            code_regex code = true)) ∧
    extract_codes_from_frame b defaultPatternMatch false exampleFrame
      = {"ABC123"} ∧
    extract_codes_from_frame b defaultPatternMatch true exampleFrame
      = {"https://example.com/ABC123"} := by
  refine ⟨⟨?_, ?_⟩, ?_, ?_⟩
  · rw [mem_extract_codes_from_frame]
    unfold hitsPayload
    simp
  · rw [mem_extract_codes_from_frame]
    unfold hitsPayload
    simp only [Bool.false_eq_true, if_false, tailMatch_eq_some]
    constructor
    · rintro ⟨url, hu, ⟨hc, hne⟩, hm⟩
      exact ⟨url, hu, hc, hne, hm⟩
    · rintro ⟨url, hu, hc, hne, hm⟩
      exact ⟨url, hu, ⟨hc, hne⟩, hm⟩
  · cases b <;> decide
  · cases b <;> decide

/-- Claim C10: in non-full-url mode an empty-string code is never put in
the result set; the tail search `[^/]+$` fails exactly on the payloads
whose trimmed form is empty or ends with `/`, and such a payload
contributes nothing to the extraction. -/
theorem empty_tail_skipped (b : DecoderBackend)
    (code_regex : String → Bool) (f : Frame) (url : String) :
    "" ∉ extract_codes_from_frame b code_regex false f ∧
    (tailMatch url = none ↔
      pyStrip url = "" ∨ (pyStrip url).data.getLast? = some '/') ∧
    (tailMatch url = none →
      ∀ (ps₁ ps₂ : List (Option String)) (m : Option (Bool × List String))
        (s : String),
        extract_codes_from_frame .primary code_regex false
            ⟨ps₁ ++ some url :: ps₂, m, s⟩ =
          extract_codes_from_frame .primary code_regex false
            ⟨ps₁ ++ ps₂, m, s⟩) := by
  refine ⟨?_, ?_, ?_⟩
  · rw [mem_extract_codes_from_frame]
    rintro ⟨u, _, htm, _⟩
    rcases tailMatch_eq_some.mp htm with ⟨_, hne⟩
    exact hne rfl
  · rw [tailMatch]
    constructor
    · intro h
      have hseg : lastSegment (pyStrip url) = [] := by
        by_contra hc
        rw [if_neg hc] at h
        exact Option.noConfusion h
      rw [lastSegment, List.reverse_eq_nil_iff] at hseg
      rw [← List.head?_reverse]
      cases hrev : (pyStrip url).data.reverse with
      | nil =>
          left
          have hdata : (pyStrip url).data = [] :=
            List.reverse_eq_nil_iff.mp hrev
          rw [← strMk_data (pyStrip url), hdata]
      | cons c rest =>
          right
          rw [hrev, List.takeWhile_cons] at hseg
          by_cases hc : c = '/'
          · rw [List.head?_cons, hc]
          · rw [if_pos (by simpa using hc)] at hseg
            exact absurd hseg (List.cons_ne_nil c _)
    · intro h
      have hseg : lastSegment (pyStrip url) = [] := by
        rw [lastSegment, List.reverse_eq_nil_iff]
        rcases h with h | h
        · rw [show (pyStrip url).data = [] from by rw [h], List.reverse_nil,
            List.takeWhile_nil]
        · rw [← List.head?_reverse] at h
          cases hrev : (pyStrip url).data.reverse with
          | nil => rfl
          | cons c rest =>
              rw [hrev, List.head?_cons, Option.some_inj] at h
              rw [List.takeWhile_cons, if_neg (by simp [h])]
      rw [if_pos hseg]
  · intro htm ps₁ ps₂ m s
    show (ps₁ ++ some url :: ps₂).foldl (addDecoded code_regex false) ∅ =
      (ps₁ ++ ps₂).foldl (addDecoded code_regex false) ∅
    rw [List.foldl_append, List.foldl_append, List.foldl_cons]
    show ((addPayload code_regex false
        (ps₁.foldl (addDecoded code_regex false) ∅) url) |>
          (fun a => ps₂.foldl (addDecoded code_regex false) a)) = _
    rw [addPayload_of_tailMatch_none code_regex _ url htm]

/-- Claim C2: for a positive interval the frame-reading loop (which reads
every frame, never raising) passes a frame downstream iff its 1-based
read index is divisible by the interval, and over `M` frames exactly
`M / K` (floor) frames are processed. -/
theorem sampling_policy (K : Nat) (hK : 0 < K) (frames : List Frame) :
    readLoop (K : Int) frames 0 = .ok (sampleLoop K frames 0) ∧
    sampleLoop K frames 0 =
      ((List.range frames.length).zip frames).filterMap
        (fun p => if (p.1 + 1) % K = 0 then some p.2 else none) ∧
    (sampleLoop K frames 0).length = frames.length / K := by
  have hfun : (fun p : Nat × Frame =>
      if (0 + p.1 + 1) % K = 0 then some p.2 else none)
      = (fun p : Nat × Frame =>
        if (p.1 + 1) % K = 0 then some p.2 else none) := by
    funext p
    rw [Nat.zero_add]
  refine ⟨readLoop_pos K hK frames 0, ?_, ?_⟩
  · rw [sampleLoop_eq_filterMap, hfun]
  · rw [sampleLoop_eq_filterMap, length_filterMap_sampled]

/-- Witness for C2 at interval 10 over 12 frames: one frame (the tenth)
is sampled. -/
theorem sampling_policy_witness :
    0 < 10 ∧
    (readLoop ((10 : Nat) : Int) witFrames 0 = .ok (sampleLoop 10 witFrames 0) ∧
      sampleLoop 10 witFrames 0 =
        ((List.range witFrames.length).zip witFrames).filterMap
          (fun p => if (p.1 + 1) % 10 = 0 then some p.2 else none) ∧
      (sampleLoop 10 witFrames 0).length = witFrames.length / 10) :=
  ⟨Nat.succ_pos 9, sampling_policy 10 (Nat.succ_pos 9) witFrames⟩

/-- Claim C3: over one run the flattened announcement stream has no
duplicate, a code is announced iff it occurs in some fed set (so each
distinct code is announced exactly once for the life of the run, however
often it is re-fed), every per-frame announcement list is sorted
ascending (and duplicate-free), the final unique set is the union of the
fed sets, and feeding the same set twice announces it the first time and
announces nothing the second time. -/
theorem dedup_announce_once (feeds : List (Finset String))
    (c : Finset String) (cs : List (Finset String)) :
    (runAccum ∅ feeds).1.flatten.Nodup ∧
    (∀ code, code ∈ (runAccum ∅ feeds).1.flatten ↔ ∃ s ∈ feeds, code ∈ s) ∧
    (∀ l ∈ (runAccum ∅ feeds).1, l.Sorted CodeLe ∧ l.Nodup) ∧
    (∀ code, code ∈ (runAccum ∅ feeds).2 ↔ ∃ s ∈ feeds, code ∈ s) ∧
    runAccum ∅ (c :: c :: cs) =
      (sortedCodes c :: [] :: (runAccum c cs).1, (runAccum c cs).2) := by
  refine ⟨runAccum_announced_nodup ∅ feeds, ?_, runAccum_frames_sorted ∅ feeds,
    ?_, ?_⟩
  · intro code
    rw [mem_runAccum_announced]
    simp
  · intro code
    rw [mem_runAccum_snd]
    simp
  · have h1 : accumStep ∅ c = (sortedCodes c, c) := by
      rw [accumStep]
      rw [Finset.sdiff_empty, Finset.empty_union]
    have h2 : accumStep c c = ([], c) := by
      rw [accumStep, Finset.sdiff_self, Finset.union_empty, sortedCodes_empty]
    rw [runAccum, h1, runAccum, h2]

/-- Claim C4, as stated, is false: the round trip is claimed for every
final unique code set, but a code containing a newline is split into two
lines on read-back, and a code with leading whitespace is altered by the
trimming, so neither set survives the round trip. -/
theorem sink_roundtrip_counterexample :
    readBack (writeOutput {"a\nb"}) ≠ sortedCodes {"a\nb"} ∧
    readBack (writeOutput {" a"}) ≠ sortedCodes {" a"} := by
  constructor
  · decide
  · decide

/-- Claim C4, amended: for every final unique code set whose codes
contain no newline and are unchanged by trimming, the sink writes the
codes sorted ascending, one per line, newline-terminated, with no header
or trailing metadata; reading the file back (line-split, trimmed) yields
exactly the sorted unique set, with no duplicates and no extra lines,
and with no output path the same sorted codes go to standard output. -/
theorem sink_roundtrip_amended (codes : Finset String)
    (h : ∀ c ∈ codes, pyStrip c = c ∧ '\n' ∉ c.data) :
    readBack (writeOutput codes) = sortedCodes codes ∧
    writeOutput codes =
      String.join ((sortedCodes codes).map (fun c => c ++ "\n")) ∧
    (sortedCodes codes).Sorted CodeLe ∧
    (sortedCodes codes).Nodup ∧
    (sortedCodes codes).toFinset = codes ∧
    stdoutCodes codes = sortedCodes codes :=
  ⟨readBack_writeOutput codes h, rfl, sortedCodes_sorted codes,
    sortedCodes_nodup codes, sortedCodes_toFinset codes, rfl⟩

/-- Witness for the amended C4 on the two-element set containing `BB`
and `AA`. -/
theorem sink_roundtrip_witness :
    (∀ c ∈ ({"BB", "AA"} : Finset String), pyStrip c = c ∧ '\n' ∉ c.data) ∧
    (readBack (writeOutput {"BB", "AA"}) = sortedCodes {"BB", "AA"} ∧
      writeOutput {"BB", "AA"} =
        String.join ((sortedCodes {"BB", "AA"}).map (fun c => c ++ "\n")) ∧
      (sortedCodes ({"BB", "AA"} : Finset String)).Sorted CodeLe ∧
      (sortedCodes ({"BB", "AA"} : Finset String)).Nodup ∧
      (sortedCodes ({"BB", "AA"} : Finset String)).toFinset = {"BB", "AA"} ∧
      stdoutCodes {"BB", "AA"} = sortedCodes {"BB", "AA"}) :=
  ⟨by decide, sink_roundtrip_amended {"BB", "AA"} (by decide)⟩

/-- Claim C5, as stated, is false: it says the scan exits with code 1
exactly when the pattern is invalid or the source is unopenable, and
exits 0 in every other run.  The run with a zero interval on an
openable nonempty source (`cfgZero`) has a valid pattern and an open
source, yet it does not exit 0: the first frame's `frame_idx % 0`
raises an uncaught `ZeroDivisionError` and the process terminates with
status 1. -/
theorem exit_code_counterexample :
    cfgZero.patternValid = true ∧ cfgZero.sourceOpens = true ∧
    cfgZero.interval = 0 ∧
    (runScan cfgZero).outcome = .crashed zeroDivMsg ∧
    exitStatus (runScan cfgZero).outcome = 1 ∧
    ¬ exitStatus (runScan cfgZero).outcome = 0 := by
  have hk : readLoop cfgZero.interval cfgZero.frames 0 =
      .error zeroDivMsg := readLoop_zero blankFrame [] 0
  rw [runScan_crashed cfgZero rfl rfl zeroDivMsg hk]
  refine ⟨rfl, rfl, rfl, rfl, rfl, ?_⟩
  intro h
  exact Nat.noConfusion h

/-- Claim C5, amended: the run makes the `sys.exit(1)` diagnostic exit
exactly when the pattern is invalid or the source does not open; in both
cases nothing is written and the outcome does not depend on the frames
(no frame has been read); every other run that does not crash — that is,
every run with a nonzero interval — completes and exits 0, including one
whose output write fails (the failure is reported only as a diagnostic);
a zero interval on an openable nonempty source instead terminates
abnormally with status 1 through an uncaught exception, never through a
diagnostic exit. -/
theorem exit_code_policy (cfg : ScanConfig) :
    ((runScan cfg).outcome = .exited 1 ↔
      cfg.patternValid = false ∨ cfg.sourceOpens = false) ∧
    (cfg.patternValid = false ∨ cfg.sourceOpens = false →
      (runScan cfg).writeAttempted = false ∧
      ∀ fs, (runScan { cfg with frames := fs }).outcome =
        (runScan cfg).outcome) ∧
    (cfg.interval ≠ 0 → cfg.patternValid = true → cfg.sourceOpens = true →
      exitStatus (runScan cfg).outcome = 0 ∧
      (runScan cfg).outcome = .completed) ∧
    (cfg.interval = 0 → cfg.patternValid = true → cfg.sourceOpens = true →
      cfg.frames ≠ [] →
        exitStatus (runScan cfg).outcome = 1 ∧
        (runScan cfg).outcome ≠ .completed ∧
        (∀ c, (runScan cfg).outcome ≠ .exited c) ∧
        (runScan cfg).writeAttempted = false) ∧
    exitStatus (runScan cfgWriteFail).outcome = 0 ∧
    "Error writing to output file" ∈ (runScan cfgWriteFail).diagnostics := by
  have hbad : cfg.patternValid = false ∨ cfg.sourceOpens = false →
      ∀ fs, runScan { cfg with frames := fs } =
        ⟨.exited 1, false, ∅,
          if cfg.patternValid = false then ["Invalid regex pattern"]
          else ["Error: unable to open video"]⟩ := by
    intro h fs
    by_cases hp : cfg.patternValid = false
    · rw [runScan_invalid_pattern { cfg with frames := fs } hp, if_pos hp]
    · have hpt : cfg.patternValid = true := by
        revert hp
        cases cfg.patternValid <;> simp
      have hs : cfg.sourceOpens = false := h.resolve_left hp
      rw [runScan_unopenable { cfg with frames := fs } hpt hs, if_neg hp]
  have hcfg : runScan cfg = runScan { cfg with frames := cfg.frames } := rfl
  have hgood : cfg.patternValid = true → cfg.sourceOpens = true →
      (runScan cfg).outcome = .completed ∨
        ∃ e, (runScan cfg).outcome = .crashed e := by
    intro hp hs
    cases hk : readLoop cfg.interval cfg.frames 0 with
    | error e =>
        right
        exact ⟨e, by rw [runScan_crashed cfg hp hs e hk]⟩
    | ok sampled =>
        left
        rw [runScan_ok cfg hp hs sampled hk]
  have hiff : (runScan cfg).outcome = .exited 1 ↔
      cfg.patternValid = false ∨ cfg.sourceOpens = false := by
    constructor
    · intro h
      by_cases hp : cfg.patternValid = false
      · exact Or.inl hp
      · by_cases hs : cfg.sourceOpens = false
        · exact Or.inr hs
        · have hpt : cfg.patternValid = true := by
            revert hp
            cases cfg.patternValid <;> simp
          have hst : cfg.sourceOpens = true := by
            revert hs
            cases cfg.sourceOpens <;> simp
          rcases hgood hpt hst with hc | ⟨e, hc⟩
          · rw [hc] at h
            exact absurd h (by simp)
          · rw [hc] at h
            exact absurd h (by simp)
    · intro h
      rw [hcfg, hbad h cfg.frames]
  refine ⟨hiff, ?_, ?_, ?_, ?_, ?_⟩
  · intro h
    constructor
    · rw [hcfg, hbad h cfg.frames]
    · intro fs
      rw [hbad h fs, hcfg, hbad h cfg.frames]
  · intro hi hp hs
    obtain ⟨kept, hk⟩ := readLoop_ne_zero cfg.interval hi cfg.frames 0
    rw [runScan_ok cfg hp hs kept hk]
    exact ⟨rfl, rfl⟩
  · intro hi hp hs hne
    cases hf : cfg.frames with
    | nil => exact absurd hf hne
    | cons f fs =>
        have hk : readLoop cfg.interval cfg.frames 0 = .error zeroDivMsg := by
          rw [hi, hf]
          exact readLoop_zero f fs 0
        rw [runScan_crashed cfg hp hs zeroDivMsg hk]
        exact ⟨rfl, fun hc => Outcome.noConfusion hc,
          fun c hc => Outcome.noConfusion hc, rfl⟩
  · have hk : readLoop cfgWriteFail.interval cfgWriteFail.frames 0 =
        .ok [] := rfl
    rw [runScan_ok cfgWriteFail rfl rfl [] hk]
    rfl
  · have hk : readLoop cfgWriteFail.interval cfgWriteFail.frames 0 =
        .ok [] := rfl
    rw [runScan_ok cfgWriteFail rfl rfl [] hk]
    decide

/-- Claim C6: across the scan loop the unique-code set only grows: the
trace of its values is a chain under inclusion (each iteration's result
contains the previous set), every later state contains every earlier
one, the trace starts at the initial set and ends at the accumulator's
final set. -/
theorem unique_set_monotone (unique : Finset String)
    (feeds : List (Finset String)) :
    (accumStates unique feeds).Chain' (· ⊆ ·) ∧
    (accumStates unique feeds).Pairwise (· ⊆ ·) ∧
    (accumStates unique feeds).head? = some unique ∧
    (∀ s ∈ accumStates unique feeds, unique ⊆ s) ∧
    (accumStates unique feeds).getLast? = some (runAccum unique feeds).2 :=
  ⟨accumStates_chain unique feeds, accumStates_pairwise unique feeds,
    accumStates_head unique feeds, mem_accumStates_subset unique feeds,
    accumStates_getLast unique feeds⟩

/-- Claim C7: the backend is fixed once at startup and is still the
selected one after any number of loop iterations (the loop body never
writes it); a payload whose decode raises is skipped without affecting
the rest of the frame; when the fallback's multi-symbol call raises, the
frame is retried with the single-symbol call (with a non-empty single
result treated as a one-element result set, an empty one as nothing) —
never by switching backend or aborting; and a frame on which decoding
fails entirely leaves the run state exactly as if the frame decoded
nothing. -/
theorem backend_fixed_for_run (importOk loadOk : Bool)
    (code_regex : String → Bool) (full_url : Bool) (frames : List Frame) :
    (runScanFrames importOk loadOk code_regex full_url frames).backend =
      selectBackend importOk loadOk ∧
    (∀ st : ScanState, ∀ f : Frame,
      (frameStep code_regex full_url st f).backend = st.backend) ∧
    (∀ (ps₁ ps₂ : List (Option String)) (m : Option (Bool × List String))
        (s : String),
      extract_codes_from_frame .primary code_regex full_url
          ⟨ps₁ ++ none :: ps₂, m, s⟩ =
        extract_codes_from_frame .primary code_regex full_url
          ⟨ps₁ ++ ps₂, m, s⟩) ∧
    (∀ (ps : List (Option String)) (s : String), s ≠ "" →
      extract_codes_from_frame .fallback code_regex full_url ⟨ps, none, s⟩ =
        extract_codes_from_frame .fallback code_regex full_url
          ⟨ps, some (true, [s]), s⟩) ∧
    (∀ (ps : List (Option String)),
      extract_codes_from_frame .fallback code_regex full_url
          ⟨ps, none, ""⟩ = ∅) := by
  refine ⟨?_, ?_, ?_, ?_, ?_⟩
  · exact foldl_frameStep_backend code_regex full_url frames _
  · intro st f
    rfl
  · intro ps₁ ps₂ m s
    show (ps₁ ++ none :: ps₂).foldl (addDecoded code_regex full_url) ∅ =
      (ps₁ ++ ps₂).foldl (addDecoded code_regex full_url) ∅
    rw [List.foldl_append, List.foldl_append, List.foldl_cons]
    rfl
  · intro ps s hs
    have h1 : fallbackDecodedInfo ⟨ps, none, s⟩ = [s] := by
      rw [fallbackDecodedInfo]
      exact if_neg hs
    have h2 : fallbackDecodedInfo ⟨ps, some (true, [s]), s⟩ = [s] := rfl
    rw [extract_codes_from_frame, extract_codes_from_frame, h1, h2]
  · intro ps
    rfl

/-- Claim C8: the `ZBAR_LIBRARY_PATH` mutation happens at most once per
process, only when the variable is not already set (a preset value is
never overwritten or cleared); when the library lookup finds nothing the
mutation is determined by the first existing entry of the fixed, ordered
candidate list; no other environment key is touched; and the value the
environment holds is fixed before (independently of) the backend-load
outcome. -/
theorem env_mutation_at_most_once (env0 findZbar findZbar0 : Option String)
    (isFile : String → Bool) (envm : String → Option String)
    (importOk loadOk : Bool) :
    envMutations env0 findZbar findZbar0 isFile ≤ 1 ∧
    (∀ v, env0 = some v →
      moduleInitEnv env0 findZbar findZbar0 isFile = some v) ∧
    (moduleInitEnv env0 findZbar findZbar0 isFile ≠ env0 → env0 = none) ∧
    (env0 = none → findZbar = none → findZbar0 = none →
      moduleInitEnv env0 findZbar findZbar0 isFile =
        brew_libs.find? isFile) ∧
    (∀ k, k ≠ zbarEnvKey →
      moduleInitEnvMap envm findZbar findZbar0 isFile k = envm k) ∧
    (moduleStartup env0 findZbar findZbar0 isFile importOk loadOk).1 =
      moduleInitEnv env0 findZbar findZbar0 isFile := by
  refine ⟨?_, ?_, ?_, ?_, ?_, rfl⟩
  · cases env0 with
    | some v => simp [envMutations, envAfterStep1, moduleInitEnv,
        envAfterStep2]
    | none =>
        cases hf : findLibResult findZbar findZbar0 with
        | some l =>
            have h1 : envAfterStep1 none findZbar findZbar0 = some l := by
              rw [envAfterStep1, hf]
            simp [envMutations, h1, moduleInitEnv, envAfterStep2]
        | none =>
            have h1 : envAfterStep1 none findZbar findZbar0 = none := by
              rw [envAfterStep1, hf]
            simp only [envMutations, h1, moduleInitEnv, envAfterStep2]
            cases hfind : brew_libs.find? isFile with
            | none => simp [hfind]
            | some v => simp [hfind]
  · intro v hv
    subst hv
    rfl
  · intro hne
    cases env0 with
    | none => rfl
    | some v => exact absurd rfl hne
  · intro h0 hz hz0
    subst h0
    subst hz
    subst hz0
    rfl
  · intro k hk
    rw [moduleInitEnvMap, if_neg hk]

/-- Claim C9: the interval is never validated.  With interval 0 the very
first frame read from an openable source evaluates `frame_idx % 0`,
which raises an uncaught `ZeroDivisionError`: the run crashes (no
`sys.exit` diagnostic, nothing written).  Negative intervals are
accepted just as well by the CLI (`type=int`) and the loop runs them
without raising. -/
theorem interval_never_validated (cfg : ScanConfig) (f : Frame)
    (fs : List Frame) :
    readLoop 0 (f :: fs) 0 = .error zeroDivMsg ∧
    (cfg.interval = 0 → cfg.patternValid = true → cfg.sourceOpens = true →
      cfg.frames = f :: fs →
        (runScan cfg).outcome = .crashed zeroDivMsg ∧
        (∀ c, (runScan cfg).outcome ≠ .exited c) ∧
        exitStatus (runScan cfg).outcome = 1 ∧
        (runScan cfg).writeAttempted = false) ∧
    (cfg.interval < 0 → cfg.patternValid = true → cfg.sourceOpens = true →
      (runScan cfg).outcome = .completed) := by
  refine ⟨readLoop_zero f fs 0, ?_, ?_⟩
  · intro hi hp hs hf
    have hk : readLoop cfg.interval cfg.frames 0 = .error zeroDivMsg := by
      rw [hi, hf]
      exact readLoop_zero f fs 0
    rw [runScan_crashed cfg hp hs zeroDivMsg hk]
    exact ⟨rfl, fun c hc => Outcome.noConfusion hc, rfl, rfl⟩
  · intro hi hp hs
    obtain ⟨kept, hk⟩ :=
      readLoop_ne_zero cfg.interval (by omega) cfg.frames 0
    rw [runScan_ok cfg hp hs kept hk]

end ZynScanner

